import Mathlib

/-!
Verification of the retry/wait utility layer of this repository
(src/utils/helpers.py): the retry_on_failure decorator (lines 557-580)
and WaitHelpers.wait_for_condition (lines 372-399).

Modelling conventions.
Python exceptions are values of an inductive type PyError. An operation
passed to the retry decorator is modelled as a function from the 0-based
attempt index to an Except value (the behaviour of func on that attempt);
the membership test of the except clause, isinstance(e, exceptions), is a
Boolean classifier on errors. Time is idealised: predicate evaluations
and operation calls take zero time, and time advances only through
time.sleep, so after i sleeps of poll_interval seconds the elapsed time
is i * poll_interval. Every run is summarised as a trace recording the
outcome together with the number of calls/evaluations and the number of
sleeps performed.
-/

/-- Exception values an operation may raise. base n is an ordinary
exception identified by a numeric code. retryExhausted e is the
RetryExhausted wrapper described by the design spec, included so that
statements about wrapping can be expressed; the source code never
constructs it (its final raise statement re-raises the caught
exception unchanged). -/
inductive PyError : Type where
  | base : Nat → PyError
  | retryExhausted : PyError → PyError
deriving DecidableEq

/-- Outcome of one call of a retry_on_failure-wrapped function: either a
normal Python return (some v when func returned v, none for the Python
None returned by the fall-through at line 578) or an uncaught exception
propagating to the caller. -/
inductive PyResult (α : Type) : Type where
  | retVal : Option α → PyResult α
  | raised : PyError → PyResult α
deriving DecidableEq

/-- Trace of one call of the wrapped function: the outcome, how many
times func was invoked, and how many times time.sleep(delay) ran. -/
structure RetryTrace (α : Type) : Type where
  result : PyResult α
  calls : Nat
  sleeps : Nat
deriving DecidableEq

/-- The loop of wrapper in retry_on_failure (helpers.py lines 568-578):

for attempt in range(max_attempts):
    try:
        return func(*args, **kwargs)
    except exceptions as e:
        if attempt == max_attempts - 1:
            raise
        time.sleep(delay)
return None

op j is what func does on its (j+1)-th invocation; retryable e models
isinstance(e, exceptions), so an error with retryable e = false is not
caught by the except clause and propagates at once. The for loop over
range(max_attempts) is rendered as recursion on the number of loop
iterations still available (remaining = M - attempt, initially M); when
it reaches 0 the loop body was entered M times and control falls
through to return None. calls and sleeps accumulate the trace. -/
def retryGo {α : Type} (M : Nat) (retryable : PyError → Bool)
    (op : Nat → Except PyError α) : Nat → Nat → Nat → Nat → RetryTrace α
  | 0, _, calls, sleeps => ⟨PyResult.retVal none, calls, sleeps⟩
  | remaining + 1, attempt, calls, sleeps =>
    match op attempt with
    | Except.ok v => ⟨PyResult.retVal (some v), calls + 1, sleeps⟩
    | Except.error e =>
      if retryable e then
        if attempt = M - 1 then
          ⟨PyResult.raised e, calls + 1, sleeps⟩
        else
          retryGo M retryable op remaining (attempt + 1) (calls + 1) (sleeps + 1)
      else
        ⟨PyResult.raised e, calls + 1, sleeps⟩

/-- One call of a function wrapped by retry_on_failure(max_attempts,
delay, exceptions), as a trace. M is max_attempts; the delay value does
not affect control flow, so only the number of sleeps is recorded. -/
def retry_on_failure {α : Type} (M : Nat) (retryable : PyError → Bool)
    (op : Nat → Except PyError α) : RetryTrace α :=
  retryGo M retryable op M 0 0 0

/-- Helper for retryGo: unfolding step when the attempt succeeds. -/
theorem retryGo_step_ok {α : Type} (M : Nat) (r : PyError → Bool)
    (op : Nat → Except PyError α) (rem a c s : Nat) (v : α)
    (hv : op a = Except.ok v) :
    retryGo M r op (rem + 1) a c s = ⟨PyResult.retVal (some v), c + 1, s⟩ := by
  simp only [retryGo, hv]

/-- Helper for retryGo: unfolding step when the attempt fails. -/
theorem retryGo_step_err {α : Type} (M : Nat) (r : PyError → Bool)
    (op : Nat → Except PyError α) (rem a c s : Nat) (e : PyError)
    (he : op a = Except.error e) :
    retryGo M r op (rem + 1) a c s =
      (if r e then
        if a = M - 1 then ⟨PyResult.raised e, c + 1, s⟩
        else retryGo M r op rem (a + 1) (c + 1) (s + 1)
      else ⟨PyResult.raised e, c + 1, s⟩) := by
  simp only [retryGo, he]

/-- Helper for retryGo: when every attempt from a on fails with a
retryable error, the loop runs to the last attempt and re-raises the
error of attempt M - 1 unchanged. -/
theorem retryGo_allfail {α : Type} (M : Nat) (r : PyError → Bool)
    (op : Nat → Except PyError α) (err : Nat → PyError)
    (hop : ∀ j, j < M → op j = Except.error (err j))
    (hr : ∀ j, j < M → r (err j) = true) :
    ∀ rem a c s, a < M → M - a = rem →
      retryGo M r op rem a c s =
        ⟨PyResult.raised (err (M - 1)), c + rem, s + (rem - 1)⟩ := by
  intro rem
  induction rem with
  | zero => intro a c s ha hrem; omega
  | succ rem ih =>
    intro a c s ha hrem
    rw [retryGo_step_err M r op rem a c s (err a) (hop a ha)]
    rw [if_pos (hr a ha)]
    by_cases halast : a = M - 1
    · rw [if_pos halast, ← halast]
      have hrem0 : rem = 0 := by omega
      subst hrem0
      rfl
    · rw [if_neg halast]
      rw [ih (a + 1) (c + 1) (s + 1) (by omega) (by omega)]
      have e1 : c + 1 + rem = c + (rem + 1) := by omega
      have e2 : s + 1 + (rem - 1) = s + (rem + 1 - 1) := by omega
      rw [e1, e2]

/-- Helper for retryGo: retryable failures up to attempt k0 - 1 and
success at attempt k0 give the result of attempt k0 after the remaining
calls, with one sleep per failed attempt. -/
theorem retryGo_success {α : Type} (M : Nat) (r : PyError → Bool)
    (op : Nat → Except PyError α) (err : Nat → PyError) (k0 : Nat) (v : α)
    (hk0 : k0 < M)
    (hok : op k0 = Except.ok v)
    (hop : ∀ j, j < k0 → op j = Except.error (err j))
    (hr : ∀ j, j < k0 → r (err j) = true) :
    ∀ d a c s, a ≤ k0 → k0 - a = d →
      retryGo M r op (M - a) a c s =
        ⟨PyResult.retVal (some v), c + (k0 - a) + 1, s + (k0 - a)⟩ := by
  intro d
  induction d with
  | zero =>
    intro a c s ha hd
    have haeq : a = k0 := by omega
    subst haeq
    obtain ⟨r2, hr2⟩ : ∃ r2, M - a = r2 + 1 := ⟨M - a - 1, by omega⟩
    rw [hr2, retryGo_step_ok M r op r2 a c s v hok]
    have e1 : c + (a - a) + 1 = c + 1 := by omega
    have e2 : s + (a - a) = s := by omega
    rw [e1, e2]
  | succ d ih =>
    intro a c s ha hd
    have halt : a < k0 := by omega
    have hanot : ¬ (a = M - 1) := by omega
    obtain ⟨r2, hr2⟩ : ∃ r2, M - a = r2 + 1 := ⟨M - a - 1, by omega⟩
    rw [hr2, retryGo_step_err M r op r2 a c s (err a) (hop a halt)]
    rw [if_pos (hr a halt), if_neg hanot]
    have hr3 : r2 = M - (a + 1) := by omega
    rw [hr3, ih (a + 1) (c + 1) (s + 1) (by omega) (by omega)]
    have e1 : c + 1 + (k0 - (a + 1)) + 1 = c + (k0 - a) + 1 := by omega
    have e2 : s + 1 + (k0 - (a + 1)) = s + (k0 - a) := by omega
    rw [e1, e2]

/-- Result of one evaluation of the Python predicate condition_func:
it returned a truthy value, returned a falsy value, or raised an
exception (caught by the except Exception handler at line 393). -/
inductive PredEval : Type where
  | tt : PredEval
  | ff : PredEval
  | raise : PredEval
deriving DecidableEq

/-- Trace of one call of wait_for_condition: the returned Boolean,
the number of predicate evaluations, and the number of
time.sleep(poll_interval) calls. -/
structure WaitTrace : Type where
  satisfied : Bool
  evals : Nat
  sleeps : Nat
deriving DecidableEq

/-- The loop of WaitHelpers.wait_for_condition (helpers.py 385-399):

start_time = time.time()
timeout_seconds = timeout / 1000
while time.time() - start_time < timeout_seconds:
    try:
        if condition_func(): return True
    except Exception as e:
        logger.debug(...)
    time.sleep(poll_interval)
return False

pred i is the result of the (i+1)-th predicate evaluation. In the
idealised time model the elapsed time at the start of iteration i is
i * p seconds, since each earlier iteration slept once; each past
iteration also evaluated the predicate once, so both running counters
equal i. Only a truthy evaluation returns True; a falsy or raising
evaluation falls through to the sleep. The fuel argument bounds the
recursion; wait_for_condition below supplies more fuel than the loop
can consume whenever p > 0, which the theorems work within. -/
def waitGo (pred : Nat → PredEval) (T p : ℚ) : Nat → Nat → WaitTrace
  | 0, i => ⟨false, i, i⟩
  | fuel + 1, i =>
    if (i : ℚ) * p < T then
      if pred i = PredEval.tt then ⟨true, i + 1, i⟩
      else waitGo pred T p fuel (i + 1)
    else ⟨false, i, i⟩

/-- One call of wait_for_condition(condition_func, timeout, poll_interval)
as a trace; timeout is in milliseconds (converted to seconds at line 386)
and p is poll_interval in seconds. -/
def wait_for_condition (pred : Nat → PredEval) (timeout p : ℚ) : WaitTrace :=
  waitGo pred (timeout / 1000) p (Nat.ceil (timeout / 1000 / p) + 1) 0

/-- Helper: a predicate that is never truthy can never produce a True
return, whatever the fuel and position. -/
theorem waitGo_not_satisfied {pred : Nat → PredEval} {T p : ℚ}
    (hnever : ∀ j, pred j ≠ PredEval.tt) :
    ∀ fuel i, (waitGo pred T p fuel i).satisfied = false := by
  intro fuel
  induction fuel with
  | zero => intro i; rfl
  | succ f ih =>
    intro i
    simp only [waitGo]
    by_cases hc : (i : ℚ) * p < T
    · rw [if_pos hc, if_neg (hnever i)]
      exact ih (i + 1)
    · rw [if_neg hc]

/-- Helper: waitGo only inspects whether each evaluation is truthy, so
two predicates that are truthy at the same indices give the same trace. -/
theorem waitGo_congr_tt {pred pred2 : Nat → PredEval} (T p : ℚ)
    (h : ∀ j, pred j = PredEval.tt ↔ pred2 j = PredEval.tt) :
    ∀ fuel i, waitGo pred T p fuel i = waitGo pred2 T p fuel i := by
  intro fuel
  induction fuel with
  | zero => intro i; rfl
  | succ f ih =>
    intro i
    simp only [waitGo]
    by_cases hc : (i : ℚ) * p < T
    · rw [if_pos hc, if_pos hc]
      by_cases hpi : pred i = PredEval.tt
      · rw [if_pos hpi, if_pos ((h i).mp hpi)]
      · rw [if_neg hpi, if_neg (fun hcon => hpi ((h i).mpr hcon))]
        exact ih (i + 1)
    · rw [if_neg hc, if_neg hc]

/-- Helper: with a never-truthy predicate and enough fuel, the loop runs
until the first index n with n * p at or past the deadline and returns
False with n evaluations and n sleeps; moreover either n is the starting
index or the previous iteration still ran before the deadline. -/
theorem waitGo_never_tt {pred : Nat → PredEval} {T p : ℚ}
    (hnever : ∀ j, pred j ≠ PredEval.tt) :
    ∀ fuel i, T ≤ ((i + fuel : Nat) : ℚ) * p →
      ∃ n, waitGo pred T p fuel i = ⟨false, n, n⟩ ∧ i ≤ n ∧
        T ≤ (n : ℚ) * p ∧ (n = i ∨ ((n : ℚ) - 1) * p < T) := by
  intro fuel
  induction fuel with
  | zero =>
    intro i h
    refine ⟨i, rfl, le_refl i, ?_, Or.inl rfl⟩
    simpa using h
  | succ f ih =>
    intro i h
    simp only [waitGo]
    by_cases hc : (i : ℚ) * p < T
    · rw [if_pos hc, if_neg (hnever i)]
      have h2 : T ≤ (((i + 1) + f : Nat) : ℚ) * p := by
        have : ((i + 1) + f : Nat) = (i + (f + 1) : Nat) := by omega
        rw [this]; exact h
      obtain ⟨n, heq, hin, hTn, hlast⟩ := ih (i + 1) h2
      refine ⟨n, heq, by omega, hTn, Or.inr ?_⟩
      rcases hlast with hni | hok
      · subst hni
        have : (((i + 1 : Nat) : ℚ) - 1) = (i : ℚ) := by push_cast; ring
        rw [this]; exact hc
      · exact hok
    · rw [if_neg hc]
      exact ⟨i, rfl, le_refl i, le_of_not_lt hc, Or.inl rfl⟩

/-- Helper: if the predicate is first truthy at index k0 and the
deadline admits iteration k0, the loop returns True after exactly
k0 + 1 evaluations and k0 sleeps. -/
theorem waitGo_first_tt {pred : Nat → PredEval} {T p : ℚ} (hp : 0 < p)
    (k0 : Nat) (hk : pred k0 = PredEval.tt)
    (hbefore : ∀ j, j < k0 → pred j ≠ PredEval.tt)
    (hdl : (k0 : ℚ) * p < T) :
    ∀ fuel i, i ≤ k0 → k0 - i < fuel →
      waitGo pred T p fuel i = ⟨true, k0 + 1, k0⟩ := by
  intro fuel
  induction fuel with
  | zero => intro i hik hfl; omega
  | succ f ih =>
    intro i hik hfl
    simp only [waitGo]
    by_cases hieq : i = k0
    · subst hieq
      rw [if_pos hdl, if_pos hk]
    · have hilt : i < k0 := by omega
      have hic : (i : ℚ) * p < T := by
        have hcast : (i : ℚ) < (k0 : ℚ) := by exact_mod_cast hilt
        calc (i : ℚ) * p < (k0 : ℚ) * p := by
              exact mul_lt_mul_of_pos_right hcast hp
          _ < T := hdl
      rw [if_pos hic, if_neg (hbefore i hilt)]
      exact ih (i + 1) (by omega) (by omega)

/-- Helper: whatever the predicate does, the number of evaluations never
exceeds the ceiling of T / p, provided the starting index satisfies the
loop invariant (either it is 0 or the previous iteration ran before the
deadline). -/
theorem waitGo_evals_le {pred : Nat → PredEval} {T p : ℚ} (hp : 0 < p) :
    ∀ (fuel : Nat) (i : Nat), (i = 0 ∨ ((i : ℚ) - 1) * p < T) →
      (waitGo pred T p fuel i).evals ≤ Nat.ceil (T / p) := by
  have hbound : ∀ i : Nat, ((i : ℚ) - 1) * p < T → i ≤ Nat.ceil (T / p) := by
    intro i hi
    have h1 : (i : ℚ) - 1 < T / p := (lt_div_iff₀ hp).mpr hi
    have h2 : (i : ℚ) < T / p + 1 := by linarith
    have h3 : T / p ≤ (Nat.ceil (T / p) : ℚ) := Nat.le_ceil _
    have h4 : (i : ℚ) < (Nat.ceil (T / p) : ℚ) + 1 := by linarith
    exact_mod_cast Nat.lt_add_one_iff.mp (by exact_mod_cast h4)
  intro fuel
  induction fuel with
  | zero =>
    intro i hi
    rcases hi with h0 | hprev
    · subst h0; exact Nat.zero_le _
    · exact hbound i hprev
  | succ f ih =>
    intro i hi
    simp only [waitGo]
    by_cases hc : (i : ℚ) * p < T
    · rw [if_pos hc]
      by_cases hpi : pred i = PredEval.tt
      · rw [if_pos hpi]
        show i + 1 ≤ Nat.ceil (T / p)
        have : (((i + 1 : Nat) : ℚ) - 1) * p < T := by push_cast; ring_nf; simpa using hc
        exact hbound (i + 1) this
      · rw [if_neg hpi]
        refine ih (i + 1) (Or.inr ?_)
        have : (((i + 1 : Nat) : ℚ) - 1) = (i : ℚ) := by push_cast; ring
        rw [this]; exact hc
    · rw [if_neg hc]
      rcases hi with h0 | hprev
      · subst h0; exact Nat.zero_le _
      · exact hbound i hprev

/-- Helper for waitGo: unfolding step when the deadline has not passed
and the evaluation is truthy. -/
theorem waitGo_step_tt {pred : Nat → PredEval} {T p : ℚ} (f i : Nat)
    (hc : (i : ℚ) * p < T) (ht : pred i = PredEval.tt) :
    waitGo pred T p (f + 1) i = ⟨true, i + 1, i⟩ := by
  simp only [waitGo, if_pos hc, if_pos ht]

/-- Helper for waitGo: unfolding step when the deadline has not passed
and the evaluation is falsy or raising. -/
theorem waitGo_step_cont {pred : Nat → PredEval} {T p : ℚ} (f i : Nat)
    (hc : (i : ℚ) * p < T) (hnt : pred i ≠ PredEval.tt) :
    waitGo pred T p (f + 1) i = waitGo pred T p f (i + 1) := by
  simp only [waitGo, if_pos hc, if_neg hnt]

/-- Helper for waitGo: unfolding step when the deadline has passed. -/
theorem waitGo_step_done {pred : Nat → PredEval} {T p : ℚ} (f i : Nat)
    (hc : ¬ (i : ℚ) * p < T) :
    waitGo pred T p (f + 1) i = ⟨false, i, i⟩ := by
  simp only [waitGo, if_neg hc]

/-- Helper: full characterization of a run whose predicate is never
truthy, for positive timeout and poll interval. The loop returns False
after n evaluations and n sleeps, where n is at least 1, the elapsed
time n * p is at least the deadline, and the previous iteration was
still before the deadline. -/
theorem wait_never_tt_run (pred : Nat → PredEval) (t p : ℚ)
    (ht : 0 < t) (hp : 0 < p) (hnever : ∀ j, pred j ≠ PredEval.tt) :
    ∃ n : Nat, wait_for_condition pred t p = ⟨false, n, n⟩ ∧ 1 ≤ n ∧
      t / 1000 ≤ (n : ℚ) * p ∧ ((n : ℚ) - 1) * p < t / 1000 := by
  have hT0 : 0 < t / 1000 := div_pos ht (by norm_num)
  have hfuel : t / 1000 ≤ ((0 + (Nat.ceil (t / 1000 / p) + 1) : Nat) : ℚ) * p := by
    have h1 : t / 1000 / p ≤ (Nat.ceil (t / 1000 / p) : ℚ) := Nat.le_ceil _
    have h2 : t / 1000 = (t / 1000 / p) * p :=
      (div_mul_cancel₀ _ (ne_of_gt hp)).symm
    calc t / 1000 = (t / 1000 / p) * p := h2
      _ ≤ (Nat.ceil (t / 1000 / p) : ℚ) * p :=
          mul_le_mul_of_nonneg_right h1 (le_of_lt hp)
      _ ≤ ((0 + (Nat.ceil (t / 1000 / p) + 1) : Nat) : ℚ) * p := by
          apply mul_le_mul_of_nonneg_right _ (le_of_lt hp)
          push_cast
          linarith
  obtain ⟨n, heq, hin, hTn, hlast⟩ :=
    waitGo_never_tt hnever (Nat.ceil (t / 1000 / p) + 1) 0 hfuel
  have hn1 : 1 ≤ n := by
    by_contra hcon
    have hn0 : n = 0 := by omega
    rw [hn0] at hTn
    simp at hTn
    linarith
  refine ⟨n, heq, hn1, hTn, ?_⟩
  rcases hlast with h0 | h1
  · exact absurd h0 (by omega)
  · exact h1

/-- Claim C1 (counterexample): with max_attempts = 2, every error
retryable and an operation that fails on every attempt with the error
base 7, the wrapped call makes 2 calls and 1 sleep and then raises the
original error base 7 itself; in particular the raised value is not a
RetryExhausted wrapper of the last underlying error, contrary to the
claim that the executor fails with RetryExhausted wrapping it. -/
theorem retry_exhaust_unwrapped_cx :
    retry_on_failure 2 (fun _ => true)
        (fun _ => (Except.error (PyError.base 7) : Except PyError Nat)) =
      ⟨PyResult.raised (PyError.base 7), 2, 1⟩ ∧
    ¬ (retry_on_failure 2 (fun _ => true)
        (fun _ => (Except.error (PyError.base 7) : Except PyError Nat))).result =
      PyResult.raised (PyError.retryExhausted (PyError.base 7)) := by
  decide

/-- Claim C1 (amended): for every operation that fails with a retryable
error kind on every attempt and every max_attempts at least 1, the
wrapped call invokes the operation exactly max_attempts times, sleeps
exactly max_attempts - 1 times (only between consecutive attempts,
never before the first or after the last), and then fails by
re-raising the last underlying error itself, unchanged; the source
raises no RetryExhausted wrapper. -/
theorem retry_exhaust_reraises_last {α : Type} (M : Nat) (r : PyError → Bool)
    (op : Nat → Except PyError α) (err : Nat → PyError)
    (hM : 1 ≤ M)
    (hop : ∀ j, j < M → op j = Except.error (err j))
    (hr : ∀ j, j < M → r (err j) = true) :
    retry_on_failure M r op = ⟨PyResult.raised (err (M - 1)), M, M - 1⟩ := by
  have h := retryGo_allfail M r op err hop hr M 0 0 0 (by omega) (by omega)
  have e1 : 0 + M = M := by omega
  have e2 : 0 + (M - 1) = M - 1 := by omega
  rw [e1, e2] at h
  exact h

/-- Claim C1 (amended, witness at max_attempts 2 and constant error
base 7). -/
theorem retry_exhaust_reraises_last_w :
    retry_on_failure 2 (fun _ => true)
        (fun _ => (Except.error (PyError.base 7) : Except PyError Nat)) =
      ⟨PyResult.raised (PyError.base 7), 2, 1⟩ :=
  retry_exhaust_reraises_last 2 (fun _ => true)
    (fun _ => (Except.error (PyError.base 7) : Except PyError Nat))
    (fun _ => PyError.base 7) (by omega) (fun j hj => rfl) (fun j hj => rfl)

/-- Claim C2 (confirmed): for every max_attempts at least 1 and every
operation whose first attempt fails with an error the classifier does
not accept (not in the decorator exceptions tuple), the wrapped call
invokes the operation exactly once and propagates that error unchanged
and immediately, with no sleep and regardless of max_attempts. -/
theorem retry_nonretryable_first_attempt {α : Type} (M : Nat)
    (r : PyError → Bool) (op : Nat → Except PyError α) (e : PyError)
    (hM : 1 ≤ M) (h0 : op 0 = Except.error e) (hnr : r e = false) :
    retry_on_failure M r op = ⟨PyResult.raised e, 1, 0⟩ := by
  obtain ⟨r2, hr2⟩ : ∃ r2, M = r2 + 1 := ⟨M - 1, by omega⟩
  unfold retry_on_failure
  rw [hr2, retryGo_step_err (r2 + 1) r op r2 0 0 0 e h0]
  rw [if_neg (by simp [hnr])]

/-- Claim C2 (witness at max_attempts 3, first error base 4 classified
non-retryable). -/
theorem retry_nonretryable_first_attempt_w :
    retry_on_failure 3 (fun _ => false)
        (fun _ => (Except.error (PyError.base 4) : Except PyError Nat)) =
      ⟨PyResult.raised (PyError.base 4), 1, 0⟩ :=
  retry_nonretryable_first_attempt 3 (fun _ => false)
    (fun _ => (Except.error (PyError.base 4) : Except PyError Nat))
    (PyError.base 4) (by omega) rfl rfl

/-- Claim C7 (confirmed): for every max_attempts at least 1 and every
operation that fails with retryable errors on attempts 1 to k - 1 and
succeeds on attempt k with k at most max_attempts, the wrapped call
returns the result of attempt k after exactly k invocations, with
k - 1 sleeps and none after the successful attempt. -/
theorem retry_success_at_k {α : Type} (M k : Nat) (r : PyError → Bool)
    (op : Nat → Except PyError α) (err : Nat → PyError) (v : α)
    (hk1 : 1 ≤ k) (hkM : k ≤ M)
    (hok : op (k - 1) = Except.ok v)
    (hop : ∀ j, j < k - 1 → op j = Except.error (err j))
    (hr : ∀ j, j < k - 1 → r (err j) = true) :
    retry_on_failure M r op = ⟨PyResult.retVal (some v), k, k - 1⟩ := by
  have h := retryGo_success M r op err (k - 1) v (by omega) hok hop hr
    (k - 1) 0 0 0 (by omega) (by omega)
  rw [Nat.sub_zero] at h
  have e1 : 0 + (k - 1 - 0) + 1 = k := by omega
  have e2 : 0 + (k - 1 - 0) = k - 1 := by omega
  rw [e1, e2] at h
  exact h

/-- Claim C7 (witness at max_attempts 3, one retryable failure then
success with value 42 on attempt 2). -/
theorem retry_success_at_k_w :
    retry_on_failure 3 (fun _ => true)
        (fun j => if j = 0 then Except.error (PyError.base 1)
                  else (Except.ok 42 : Except PyError Nat)) =
      ⟨PyResult.retVal (some 42), 2, 1⟩ :=
  retry_success_at_k 3 2 (fun _ => true)
    (fun j => if j = 0 then Except.error (PyError.base 1)
              else (Except.ok 42 : Except PyError Nat))
    (fun _ => PyError.base 1) 42 (by omega) (by omega) rfl
    (fun j hj => by
      have hj0 : j = 0 := by omega
      subst hj0
      rfl)
    (fun j hj => rfl)

/-- Claim C9 (confirmed): with max_attempts = 0 the for loop body never
runs, so the wrapped call returns Python None after zero invocations of
the operation, zero sleeps, and no exception. -/
theorem retry_zero_attempts_returns_none {α : Type} (r : PyError → Bool)
    (op : Nat → Except PyError α) :
    retry_on_failure 0 r op = ⟨PyResult.retVal none, 0, 0⟩ := rfl

/-- Claim C3 (counterexample): with timeout 1000 ms, poll interval 1 s
and a predicate that is first truthy on its 2nd evaluation, the claim
predicts a True return after exactly 2 evaluations; the code instead
reaches the deadline after the sleep that follows the 1st evaluation
and returns False with a single evaluation. -/
theorem wait_satisfied_needs_deadline_cx :
    wait_for_condition (fun i => if i = 0 then PredEval.ff else PredEval.tt)
        1000 1 = ⟨false, 1, 1⟩ := by
  unfold wait_for_condition
  have hq : (1000 : ℚ) / 1000 / 1 = 1 := by norm_num
  rw [hq, Nat.ceil_one]
  rw [waitGo_step_cont 1 0 (by norm_num) (by decide)]
  rw [waitGo_step_done 0 1 (by norm_num)]

/-- Claim C3 (amended): for every poll_interval > 0 and every predicate
first truthy on its k-th evaluation, wait_for_condition returns True
after exactly k evaluations with k - 1 sleeps and no sleep after the
k-th evaluation, provided the k-th evaluation still starts before the
deadline, that is (k - 1) * poll_interval < timeout / 1000; in
particular k = 1 returns immediately with no sleep. Without that
proviso the deadline can arrive first and the call returns False. -/
theorem wait_first_true_within_deadline (pred : Nat → PredEval)
    (t p : ℚ) (k : Nat) (hp : 0 < p) (hk1 : 1 ≤ k)
    (htt : pred (k - 1) = PredEval.tt)
    (hbefore : ∀ j, j < k - 1 → pred j ≠ PredEval.tt)
    (hdl : ((k - 1 : Nat) : ℚ) * p < t / 1000) :
    wait_for_condition pred t p = ⟨true, k, k - 1⟩ := by
  have hfl : (k - 1) - 0 < Nat.ceil (t / 1000 / p) + 1 := by
    have h1 : ((k - 1 : Nat) : ℚ) < t / 1000 / p := (lt_div_iff₀ hp).mpr hdl
    have h2 : t / 1000 / p ≤ (Nat.ceil (t / 1000 / p) : ℚ) := Nat.le_ceil _
    have h3 : ((k - 1 : Nat) : ℚ) < (Nat.ceil (t / 1000 / p) : ℚ) :=
      lt_of_lt_of_le h1 h2
    have h4 : k - 1 < Nat.ceil (t / 1000 / p) := by exact_mod_cast h3
    omega
  have h := waitGo_first_tt hp (k - 1) htt hbefore hdl
    (Nat.ceil (t / 1000 / p) + 1) 0 (by omega) hfl
  have e1 : k - 1 + 1 = k := by omega
  rw [e1] at h
  exact h

/-- Claim C3 (amended, witness: timeout 5000 ms, poll 1 s, predicate
first truthy on evaluation 2). -/
theorem wait_first_true_within_deadline_w :
    wait_for_condition (fun i => if i = 0 then PredEval.ff else PredEval.tt)
        5000 1 = ⟨true, 2, 1⟩ :=
  wait_first_true_within_deadline
    (fun i => if i = 0 then PredEval.ff else PredEval.tt) 5000 1 2
    (by norm_num) (by omega) rfl
    (fun j hj => by
      have hj0 : j = 0 := by omega
      subst hj0
      decide)
    (by norm_num)

/-- Claim C4 (confirmed): for every timeout > 0 and poll_interval > 0
and every predicate that is never truthy, wait_for_condition returns
False without raising, after the same number of evaluations as sleeps,
with total elapsed time (sleeps times poll_interval) at least the
timeout in seconds and strictly less than timeout in seconds plus one
poll_interval. In the code each evaluation, the last included, is
followed by one sleep before the while condition is rechecked. -/
theorem wait_never_true_times_out (pred : Nat → PredEval) (t p : ℚ)
    (ht : 0 < t) (hp : 0 < p) (hnever : ∀ j, pred j ≠ PredEval.tt) :
    (wait_for_condition pred t p).satisfied = false ∧
    (wait_for_condition pred t p).evals = (wait_for_condition pred t p).sleeps ∧
    t / 1000 ≤ ((wait_for_condition pred t p).sleeps : ℚ) * p ∧
    ((wait_for_condition pred t p).sleeps : ℚ) * p < t / 1000 + p := by
  obtain ⟨n, heq, hn1, hTn, hlast⟩ := wait_never_tt_run pred t p ht hp hnever
  rw [heq]
  refine ⟨rfl, rfl, hTn, ?_⟩
  have : ((n : ℚ) - 1) * p = (n : ℚ) * p - p := by ring
  rw [this] at hlast
  linarith

/-- Claim C4 (witness: timeout 2000 ms, poll 1 s, always-falsy
predicate). -/
theorem wait_never_true_times_out_w :
    (wait_for_condition (fun _ => PredEval.ff) 2000 1).satisfied = false ∧
    (wait_for_condition (fun _ => PredEval.ff) 2000 1).evals =
      (wait_for_condition (fun _ => PredEval.ff) 2000 1).sleeps ∧
    (2000 : ℚ) / 1000 ≤
      ((wait_for_condition (fun _ => PredEval.ff) 2000 1).sleeps : ℚ) * 1 ∧
    ((wait_for_condition (fun _ => PredEval.ff) 2000 1).sleeps : ℚ) * 1 <
      (2000 : ℚ) / 1000 + 1 :=
  wait_never_true_times_out (fun _ => PredEval.ff) 2000 1 (by norm_num)
    (by norm_num) (fun j h => PredEval.noConfusion h)

/-- Claim C5 (confirmed): for every timeout > 0 and poll_interval > 0,
a predicate that raises on every evaluation still yields a False
return (the except Exception handler swallows each exception), and the
whole run is identical to the run of a predicate that returns a falsy
value on every evaluation: each raising evaluation is treated exactly
like one returning False. -/
theorem wait_raising_pred_times_out (pred : Nat → PredEval) (t p : ℚ)
    (ht : 0 < t) (hp : 0 < p) (hraise : ∀ j, pred j = PredEval.raise) :
    (wait_for_condition pred t p).satisfied = false ∧
    wait_for_condition pred t p = wait_for_condition (fun _ => PredEval.ff) t p := by
  constructor
  · exact waitGo_not_satisfied
      (fun j => by rw [hraise j]; exact fun h => PredEval.noConfusion h) _ _
  · exact waitGo_congr_tt _ _
      (fun j => by
        rw [hraise j]
        constructor
        · exact fun h => PredEval.noConfusion h
        · exact fun h => PredEval.noConfusion h) _ _

/-- Claim C5 (witness: timeout 1000 ms, poll 1 s, always-raising
predicate). -/
theorem wait_raising_pred_times_out_w :
    (wait_for_condition (fun _ => PredEval.raise) 1000 1).satisfied = false ∧
    wait_for_condition (fun _ => PredEval.raise) 1000 1 =
      wait_for_condition (fun _ => PredEval.ff) 1000 1 :=
  wait_raising_pred_times_out (fun _ => PredEval.raise) 1000 1 (by norm_num)
    (by norm_num) (fun j => rfl)

/-- Claim C6 (counterexample): with timeout 2000 ms, poll 1 s and a
predicate whose every call raises (as attempting to call a malformed or
None predicate does), the claim predicts that the fault propagates
immediately on the first evaluation; the code instead swallows it in
the except Exception handler, keeps polling until the deadline and
returns False after 2 evaluations, not 1. -/
theorem wait_malformed_pred_swallowed_cx :
    wait_for_condition (fun _ => PredEval.raise) 2000 1 = ⟨false, 2, 2⟩ ∧
    ¬ (wait_for_condition (fun _ => PredEval.raise) 2000 1).evals = 1 := by
  have htrace : wait_for_condition (fun _ => PredEval.raise) 2000 1 =
      ⟨false, 2, 2⟩ := by
    unfold wait_for_condition
    have hq : (2000 : ℚ) / 1000 / 1 = 2 := by norm_num
    rw [hq, Nat.ceil_ofNat]
    rw [waitGo_step_cont (1 + 1) 0 (by norm_num) (by decide)]
    rw [waitGo_step_cont 1 1 (by norm_num) (by decide)]
    rw [waitGo_step_done 0 2 (by norm_num)]
  refine ⟨htrace, ?_⟩
  rw [htrace]
  decide

/-- Claim C6 (amended): for every timeout > 0 and poll_interval > 0, a
fault raised by attempting to call a malformed predicate (a TypeError
from calling None, modelled as a predicate whose every evaluation
raises) is caught by the except Exception handler exactly like a
transient failure: wait_for_condition swallows it, performs at least
one evaluation, keeps polling until the deadline, and returns False
rather than propagating the fault. -/
theorem wait_malformed_pred_swallowed (pred : Nat → PredEval) (t p : ℚ)
    (ht : 0 < t) (hp : 0 < p) (hraise : ∀ j, pred j = PredEval.raise) :
    (wait_for_condition pred t p).satisfied = false ∧
    1 ≤ (wait_for_condition pred t p).evals ∧
    t / 1000 ≤ ((wait_for_condition pred t p).evals : ℚ) * p := by
  have hnever : ∀ j, pred j ≠ PredEval.tt := by
    intro j
    rw [hraise j]
    exact fun h => PredEval.noConfusion h
  obtain ⟨n, heq, hn1, hTn, hlast⟩ := wait_never_tt_run pred t p ht hp hnever
  rw [heq]
  exact ⟨rfl, hn1, hTn⟩

/-- Claim C6 (amended, witness: timeout 3000 ms, poll 1 s,
always-raising predicate). -/
theorem wait_malformed_pred_swallowed_w :
    (wait_for_condition (fun _ => PredEval.raise) 3000 1).satisfied = false ∧
    1 ≤ (wait_for_condition (fun _ => PredEval.raise) 3000 1).evals ∧
    (3000 : ℚ) / 1000 ≤
      ((wait_for_condition (fun _ => PredEval.raise) 3000 1).evals : ℚ) * 1 :=
  wait_malformed_pred_swallowed (fun _ => PredEval.raise) 3000 1 (by norm_num)
    (by norm_num) (fun j => rfl)

/-- Claim C8 (confirmed): for every timeout > 0 and poll_interval > 0
and every predicate, wait_for_condition terminates with at most the
ceiling of (timeout in seconds divided by poll_interval) predicate
evaluations; in particular when the timeout in seconds is smaller than
poll_interval at most one evaluation occurs. Termination itself is
structural: the trace is a total function of its inputs. -/
theorem wait_eval_count_bound (pred : Nat → PredEval) (t p : ℚ)
    (ht : 0 < t) (hp : 0 < p) :
    (wait_for_condition pred t p).evals ≤ Nat.ceil (t / 1000 / p) ∧
    (t / 1000 < p → (wait_for_condition pred t p).evals ≤ 1) := by
  have h1 := @waitGo_evals_le pred (t / 1000) p hp
    (Nat.ceil (t / 1000 / p) + 1) 0 (Or.inl rfl)
  refine ⟨h1, ?_⟩
  intro hlt
  have hle : t / 1000 / p ≤ 1 := by
    rw [div_le_one hp]
    exact le_of_lt hlt
  have hc : Nat.ceil (t / 1000 / p) ≤ 1 :=
    Nat.ceil_le.mpr (by exact_mod_cast hle)
  exact le_trans h1 hc

/-- Claim C8 (witness: timeout 500 ms, poll 1 s, always-falsy
predicate; 500 ms is below one poll interval). -/
theorem wait_eval_count_bound_w :
    (wait_for_condition (fun _ => PredEval.ff) 500 1).evals ≤
      Nat.ceil ((500 : ℚ) / 1000 / 1) ∧
    ((500 : ℚ) / 1000 < 1 →
      (wait_for_condition (fun _ => PredEval.ff) 500 1).evals ≤ 1) :=
  wait_eval_count_bound (fun _ => PredEval.ff) 500 1 (by norm_num) (by norm_num)

/-- Claim C10 (confirmed): for every timeout at most 0 (below the
stated precondition timeout > 0), every poll_interval and every
predicate, the while condition fails at once, so wait_for_condition
returns False immediately with zero evaluations and zero sleeps. -/
theorem wait_nonpositive_timeout (pred : Nat → PredEval) (t p : ℚ)
    (ht : t ≤ 0) :
    wait_for_condition pred t p = ⟨false, 0, 0⟩ := by
  unfold wait_for_condition
  apply waitGo_step_done
  have h0 : ((0 : Nat) : ℚ) * p = 0 := by push_cast; ring
  rw [h0]
  have hT : t / 1000 ≤ 0 := div_nonpos_iff.mpr (Or.inr ⟨ht, by norm_num⟩)
  exact not_lt.mpr hT

/-- Claim C10 (witness: timeout 0 ms, poll 1 s, always-truthy
predicate, never consulted). -/
theorem wait_nonpositive_timeout_w :
    wait_for_condition (fun _ => PredEval.tt) 0 1 = ⟨false, 0, 0⟩ :=
  wait_nonpositive_timeout (fun _ => PredEval.tt) 0 1 (by norm_num)
